import Mathlib

/-!
# ChatApp relay server (`src/server.c`)

A shallow embedding of the `select` loop of `main`: connection admission
(lines 134-176), the client scan (lines 179-242) and the per-client message
dispatch (lines 184-240), together with `ClearUser` and the table set-up.

Conventions of the embedding.

* Bytes are natural numbers, descriptors and the `int` loop variables are
  integers.
* A C string is the list of its bytes before the terminating NUL.  The frame
  buffer `buf` of `main` is kept as its `BUFLEN` raw bytes, because it is
  carried from one dispatch to the next.
* `write(fd, b, BUFLEN)` is recorded as the descriptor and the string that
  `sprintf` stored in `b`; the bytes behind the terminating NUL are whatever
  the stack held and are not part of the record.
* `server.h` is not part of the sources at hand.  Its constants are the fields
  of `Config`; `BUFLEN` is taken from `clientCode.h`.
* Where C leaves the behaviour undefined (a `sprintf` that overruns its
  `BUFLEN` buffer, `strlen` of a buffer without NUL, `strcpy` from the null
  pointer that `strtok` returns, a table row beyond `MAXCLIENTS`, a conversion
  in a format string without argument) the outcome is `Outcome.undefined`.
  The one exception is the third conversion of the `USERLEFT` format, see
  `dispatch`.
* Descriptor sets are lists of integers used as sets.  The capacity of an
  `fd_set` (descriptors below `FD_SETSIZE`) is a matter of memory layout and
  is not tracked.
* `Refresh` only prints and is left out.
-/

namespace ChatServer

/-! ## Constants and data -/

/-- Constants that `server.c` takes from `server.h`. -/
structure Config where
  FD_SETSIZE : Nat
  MAXCLIENTS : Nat
  NEWUSER : Nat
  USERLEFT : Nat
  MESSAGEDELIMITER : Nat
  deriving DecidableEq, Repr

/-- Buffer length, `#define BUFLEN 255`. -/
def BUFLEN : Nat := 255

/-- An IPv4 address (`struct in_addr`), most significant octet first. -/
structure InAddr where
  o1 : Nat
  o2 : Nat
  o3 : Nat
  o4 : Nat
  deriving DecidableEq, Repr

/-- Decimal digits of an octet, as ASCII bytes. -/
def decimal (n : Nat) : List Nat :=
  if n < 10 then [48 + n]
  else if n < 100 then [48 + n / 10, 48 + n % 10]
  else [48 + n / 100, 48 + n / 10 % 10, 48 + n % 10]

/-- The libc function `inet_ntoa`: dotted-quad text of an address. -/
def inet_ntoa (a : InAddr) : List Nat :=
  decimal (a.o1 % 256) ++ 46 :: (decimal (a.o2 % 256) ++ 46 ::
    (decimal (a.o3 % 256) ++ 46 :: decimal (a.o4 % 256)))

/-- The variables of `main` that live across iterations of the `while (1)`
loop, and the two global tables. -/
structure State where
  listeningSocketDescriptor : Int
  client : List Int
  addresses : List (List Nat)
  usernames : List (List Nat)
  allSet : List Int
  clientLatestSocket : Int
  currentNewestClient : Int
  clientAddress : InAddr
  buf : List Nat
  deriving DecidableEq, Repr

/-- One call `write(fd, b, BUFLEN)`: the descriptor passed and the string
held by `b`. -/
structure Write where
  fd : Int
  frame : List Nat
  deriving DecidableEq, Repr

/-- How a piece of the loop body ends: it goes on with a new value, the
process calls `exit(1)`, or the behaviour is undefined.  Each case carries
the trace produced up to that point. -/
inductive Outcome (τ α : Type) where
  | running (a : α) (w : List τ)
  | exited (w : List τ)
  | undefined (w : List τ)
  deriving DecidableEq, Repr

/-- Trace of an outcome. -/
def Outcome.trace {τ α : Type} : Outcome τ α → List τ
  | .running _ w => w
  | .exited w => w
  | .undefined w => w

/-- Value of an outcome that goes on. -/
def Outcome.value? {τ α : Type} : Outcome τ α → Option α
  | .running a _ => some a
  | .exited _ => none
  | .undefined _ => none

/-- Put a trace in front of the trace of an outcome. -/
def Outcome.after {τ α : Type} (pre : List τ) : Outcome τ α → Outcome τ α
  | .running a w => .running a (pre ++ w)
  | .exited w => .exited (pre ++ w)
  | .undefined w => .undefined (pre ++ w)

/-! ## Set-up (lines 112-125) -/

/-- `InitializeAddresses()` (lines 266-270): every one of the `MAXCLIENTS`
rows of `addresses` becomes the empty string. -/
def InitializeAddresses (cfg : Config) : List (List Nat) :=
  List.replicate cfg.MAXCLIENTS []

/-- `ClearUser(index)` (lines 320-323). -/
def ClearUser (s : State) (index : Nat) : State :=
  { s with
    addresses := s.addresses.set index []
    usernames := s.usernames.set index [] }

/-- State on first entry to the `while (1)` loop.  `clientAddress` and `buf`
are locals without initialiser, so their first contents are arguments;
`usernames` is a global and starts zeroed, `addresses` is emptied by
`InitializeAddresses`. -/
def initState (cfg : Config) (lsd : Int) (addr0 : InAddr) (buf0 : List Nat) : State :=
  { listeningSocketDescriptor := lsd
    client := List.replicate cfg.FD_SETSIZE (-1)
    addresses := InitializeAddresses cfg
    usernames := List.replicate cfg.MAXCLIENTS []
    allSet := [lsd]
    clientLatestSocket := lsd
    currentNewestClient := -1
    clientAddress := addr0
    buf := buf0 }

/-! ## Descriptor sets -/

/-- `FD_SET(fd, &set)`. -/
def FD_SET (fd : Int) (set : List Int) : List Int :=
  if fd ∈ set then set else fd :: set

/-- `FD_CLR(fd, &set)`. -/
def FD_CLR (fd : Int) (set : List Int) : List Int :=
  set.filter (fun x => decide (x ≠ fd))

/-! ## Strings and buffers -/

/-- Whether a string fits a `char[BUFLEN]` together with its NUL. -/
def fits (str : List Nat) : Bool := decide (str.length < BUFLEN)

/-- The string that starts a raw buffer. -/
def cstr (buf : List Nat) : List Nat := buf.takeWhile (fun b => decide (b ≠ 0))

/-- `strlen` of a raw buffer; `none` when the buffer holds no NUL. -/
def strlen (buf : List Nat) : Option Nat :=
  if 0 ∈ buf then some (cstr buf).length else none

/-- Store `data` into a raw buffer at offset `off`. -/
def overlay (buf : List Nat) (off : Nat) (data : List Nat) : List Nat :=
  buf.take off ++ data ++ buf.drop (off + data.length)

/-- Output of `sprintf(dst, fmt)` called without further arguments, as on
line 229.  `pending` says that the previous byte was an unmatched percent
sign.  Only the conversion of a doubled percent sign is defined. -/
def formatFrom : Bool → List Nat → Option (List Nat)
  | false, [] => some []
  | true, [] => none
  | false, b :: rest =>
    if b = 37 then formatFrom true rest else (formatFrom false rest).map (fun r => b :: r)
  | true, b :: rest =>
    if b = 37 then (formatFrom false rest).map (fun r => 37 :: r) else none

/-- Result of `strtok(buf, &token)` on line 223, where `token` holds the one
byte `delim`: the token found and the buffer after the call, or `none` when
`strtok` returns the null pointer.  Leading delimiters are skipped, and the
delimiter that ends the token is overwritten with NUL.  `&token` points to a
single `char`, not to a terminated string; the bytes behind it in memory are
taken to be NUL, so that the delimiter set is the one byte. -/
def strtok (delim : Nat) (buf : List Nat) : Option (List Nat × List Nat) :=
  let skip := (buf.takeWhile (fun b => decide (b ≠ 0 ∧ b = delim))).length
  if (buf.drop skip).headD 0 = 0 then none
  else
    let tok := (buf.drop skip).takeWhile (fun b => decide (b ≠ 0 ∧ b ≠ delim))
    let stop := skip + tok.length
    some (tok, if buf.getD stop 0 = 0 then buf else buf.set stop 0)

/-! ## The read loop (lines 184-190) -/

/-- What a call of `read` returns when it delivers no data: 0 or -1. -/
inductive ReadEnd where
  | closed
  | error
  deriving DecidableEq, Repr

/-- Return value of `read` for a `ReadEnd`. -/
def ReadEnd.toInt : ReadEnd → Int
  | .closed => 0
  | .error => -1

/-- What the socket delivers to one run of the read loop: the data of the
successive calls of `read` that return data, then the result of the call
that returns none. -/
structure ReadScript where
  chunks : List (List Nat)
  last : ReadEnd
  deriving DecidableEq, Repr

/-- The loop `while ((bytesRead = read(fd, bufPointer, bytesToRead)) > 0)`.
Returns the buffer and the final `bytesRead`.  A call with
`bytesToRead = 0` returns 0; a call never returns more than
`bytesToRead` bytes. -/
def readLoop (last : ReadEnd) : List (List Nat) → List Nat → Nat → Nat → List Nat × Int
  | [], buf, _, bytesToRead => (buf, if bytesToRead = 0 then 0 else last.toInt)
  | c :: cs, buf, off, bytesToRead =>
    if bytesToRead = 0 ∨ c = [] then (buf, 0)
    else
      readLoop last cs (overlay buf off (c.take bytesToRead))
        (off + (c.take bytesToRead).length) (bytesToRead - (c.take bytesToRead).length)

/-! ## Admission (lines 134-176) -/

/-- Number of iterations of a loop `for (j = 0; j <= currentNewestClient; j++)`. -/
def loopCount (s : State) : Nat := (s.currentNewestClient + 1).toNat

/-- The string of line 143:
`sprintf(newbuf, "%c%s%c%s", NEWUSER, usernames[j], MESSAGEDELIMITER, addresses[j])`. -/
def rosterFrame (cfg : Config) (s : State) (j : Nat) : List Nat :=
  cfg.NEWUSER :: (s.usernames.getD j [] ++ cfg.MESSAGEDELIMITER :: s.addresses.getD j [])

/-- The strings the loop of lines 141-145 builds, one per index
`0 .. currentNewestClient`. -/
def rosterFrames (cfg : Config) (s : State) : List (List Nat) :=
  (List.range (loopCount s)).map (rosterFrame cfg s)

/-- The loop of lines 147-152 from index `i` with `fuel` iterations left:
the first index whose entry is negative, or the index after the last. -/
def findSlotFrom (client : List Int) : Nat → Nat → Nat
  | 0, i => i
  | fuel + 1, i => if client.getD i 0 < 0 then i else findSlotFrom client fuel (i + 1)

/-- Value of `i` after the loop of lines 147-152. -/
def findSlot (cfg : Config) (client : List Int) : Nat :=
  findSlotFrom client cfg.FD_SETSIZE 0

/-- Lines 137-168: `accept` has returned `newfd` for a peer at `addr`. -/
def acceptClient (cfg : Config) (s : State) (newfd : Int) (addr : InAddr) : Outcome Write State :=
  if newfd = -1 then .exited []
  else
    let sent := ((rosterFrames cfg s).takeWhile fits).map (Write.mk newfd)
    if (rosterFrames cfg s).all fits = false then .undefined sent
    else
      let i := findSlot cfg s.client
      if i = cfg.FD_SETSIZE then .exited sent
      else if cfg.MAXCLIENTS ≤ i then .undefined sent
      else
        .running
          { s with
            client := s.client.set i newfd
            addresses := s.addresses.set i (inet_ntoa addr)
            allSet := FD_SET newfd s.allSet
            clientLatestSocket :=
              if newfd > s.clientLatestSocket then newfd else s.clientLatestSocket
            currentNewestClient :=
              if (i : Int) > s.currentNewestClient then (i : Int) else s.currentNewestClient
            clientAddress := addr }
          sent

/-! ## Message dispatch (lines 184-240) -/

/-- The loops of lines 198-202, 217-221 and 230-234:
`for (j = 0; j <= currentNewestClient; j++) if (curClientSocket != client[j]) write(client[j], ...)`. -/
def broadcast (s : State) (curClientSocket : Int) (frame : List Nat) : List Write :=
  ((List.range (loopCount s)).filter
    (fun j => decide (curClientSocket ≠ s.client.getD j (-1)))).map
    (fun j => Write.mk (s.client.getD j (-1)) frame)

/-- Which branch a dispatch took. -/
inductive Kind where
  | left
  | announce
  | chat
  deriving DecidableEq, Repr

/-- Lines 184-237 for slot `i`.  `stray` is the byte the third conversion of
`sprintf(newbuf, "%c%s%c", USERLEFT, inet_ntoa(...))` emits: the call passes
no argument for it, so the byte is whatever the calling convention leaves
there.  The address printed in all three branches is that of
`clientAddress`, the variable `accept` last filled. -/
def dispatch (cfg : Config) (s : State) (i : Nat) (rd : ReadScript) (stray : Nat) :
    Outcome Write (State × Kind) :=
  let curClientSocket := s.client.getD i (-1)
  let r := readLoop rd.last rd.chunks s.buf 0 BUFLEN
  let buf := r.1
  let bytesRead := r.2
  let addr := inet_ntoa s.clientAddress
  match strlen buf with
  | none => .undefined []
  | some len =>
    if len = 0 ∧ bytesRead = 0 then
      let newbuf := cfg.USERLEFT :: (addr ++ [stray])
      if fits newbuf = false then .undefined []
      else
        .running
          ({ ClearUser { s with buf := buf, allSet := FD_CLR curClientSocket s.allSet } i with
             client := s.client.set i (-1) }, Kind.left)
          (broadcast s curClientSocket newbuf)
    else if buf.headD 0 = cfg.NEWUSER then
      let newbuf := cstr buf ++ cfg.MESSAGEDELIMITER :: addr
      if fits newbuf = false then .undefined []
      else
        let w := broadcast s curClientSocket newbuf
        let buf1 := overlay buf 0 ((buf.drop 1).take len)
        match strtok cfg.MESSAGEDELIMITER buf1 with
        | none => .undefined w
        | some (tok, buf2) =>
          .running ({ s with buf := buf2.set 0 0, usernames := s.usernames.set i tok },
            Kind.announce) w
    else
      let newbuf := addr ++ cfg.MESSAGEDELIMITER :: cstr buf
      if fits newbuf = false then .undefined []
      else
        match formatFrom false (cstr newbuf) with
        | none => .undefined []
        | some out =>
          .running ({ s with buf := (overlay buf 0 (out ++ [0])).set 0 0 }, Kind.chat)
            (broadcast s curClientSocket out)

/-! ## One iteration of the `while (1)` loop (lines 128-243) -/

/-- What `select`, `accept` and `read` deliver during one iteration. -/
structure WakeInput where
  curSet : List Int
  numReadibleDescriptors : Int
  newSocketDescriptor : Int
  newAddress : InAddr
  reads : Nat → ReadScript
  stray : Nat → Nat

/-- One serviced descriptor of an iteration, with the writes it caused. -/
inductive Serviced where
  | listener (w : List Write)
  | slot (i : Nat) (w : List Write)
  deriving DecidableEq, Repr

/-- The scan of lines 179-242 from index `i` with `fuel` iterations left and
the counter `numReadibleDescriptors` at `n`. -/
def scan (cfg : Config) (inp : WakeInput) : Nat → Nat → State → Int → Outcome Serviced State
  | 0, _, s, _ => .running s []
  | fuel + 1, i, s, n =>
    if s.client.getD i (-1) < 0 then scan cfg inp fuel (i + 1) s n
    else if s.client.getD i (-1) ∈ inp.curSet then
      match dispatch cfg s i (inp.reads i) (inp.stray i) with
      | .undefined w => .undefined [Serviced.slot i w]
      | .exited w => .exited [Serviced.slot i w]
      | .running (s1, Kind.left) w =>
        (scan cfg inp fuel (i + 1) s1 n).after [Serviced.slot i w]
      | .running (s1, _) w =>
        if n - 1 ≤ 0 then .running s1 [Serviced.slot i w]
        else (scan cfg inp fuel (i + 1) s1 (n - 1)).after [Serviced.slot i w]
    else scan cfg inp fuel (i + 1) s n

/-- The body of the `while (1)` loop. -/
def wake (cfg : Config) (s : State) (inp : WakeInput) : Outcome Serviced State :=
  if s.listeningSocketDescriptor ∈ inp.curSet then
    match acceptClient cfg s inp.newSocketDescriptor inp.newAddress with
    | .undefined w => .undefined [Serviced.listener w]
    | .exited w => .exited [Serviced.listener w]
    | .running s1 w =>
      if inp.numReadibleDescriptors - 1 ≤ 0 then .running s1 [Serviced.listener w]
      else
        (scan cfg inp (loopCount s1) 0 s1 (inp.numReadibleDescriptors - 1)).after
          [Serviced.listener w]
  else scan cfg inp (loopCount s) 0 s inp.numReadibleDescriptors

/-! ## Reachable states -/

/-- The descriptor handed out by `accept` is not one the server still holds
open, that is, neither the listener nor an entry of `client`. -/
def Fresh (s : State) (newfd : Int) : Prop :=
  newfd ≠ s.listeningSocketDescriptor ∧ newfd ∉ s.client

/-- States at the top of the `while (1)` loop: the state after set-up, and
every state that an admission, a dispatch on an active slot, or a whole
iteration of the loop leads to.  `socket` returns a descriptor that is not
negative, `accept` returns -1 or a descriptor that is not negative. -/
inductive Reachable (cfg : Config) : State → Prop where
  | init (lsd : Int) (addr0 : InAddr) (buf0 : List Nat) (h : 0 ≤ lsd) :
    Reachable cfg (initState cfg lsd addr0 buf0)
  | accept {s s1 : State} {newfd : Int} {addr : InAddr} {w : List Write}
    (hs : Reachable cfg s) (hfd : 0 ≤ newfd) (hfresh : Fresh s newfd)
    (h : acceptClient cfg s newfd addr = Outcome.running s1 w) : Reachable cfg s1
  | dispatch {s s1 : State} {i : Nat} {rd : ReadScript} {stray : Nat} {k : Kind}
    {w : List Write} (hs : Reachable cfg s) (hact : 0 ≤ s.client.getD i (-1))
    (h : dispatch cfg s i rd stray = Outcome.running (s1, k) w) : Reachable cfg s1
  | wake {s s1 : State} {inp : WakeInput} {tr : List Serviced} (hs : Reachable cfg s)
    (hacc : s.listeningSocketDescriptor ∈ inp.curSet → -1 ≤ inp.newSocketDescriptor)
    (hfresh : s.listeningSocketDescriptor ∈ inp.curSet → Fresh s inp.newSocketDescriptor)
    (h : wake cfg s inp = Outcome.running s1 tr) : Reachable cfg s1

/-- Facts that hold of every reachable state. -/
structure Inv (cfg : Config) (s : State) : Prop where
  len : s.client.length = cfg.FD_SETSIZE
  lsd_nonneg : 0 ≤ s.listeningSocketDescriptor
  entries : ∀ j, s.client.getD j (-1) = -1 ∨ 0 ≤ s.client.getD j (-1)
  bound : ∀ j, 0 ≤ s.client.getD j (-1) → (j : Int) ≤ s.currentNewestClient
  cnc_lower : -1 ≤ s.currentNewestClient
  cnc_upper : s.currentNewestClient < cfg.FD_SETSIZE
  distinct : ∀ j k, 0 ≤ s.client.getD j (-1) →
    s.client.getD j (-1) = s.client.getD k (-1) → j = k
  lsd_notin : ∀ j, s.client.getD j (-1) ≠ s.listeningSocketDescriptor
  watched : ∀ fd, fd ∈ s.allSet ↔
    fd = s.listeningSocketDescriptor ∨ ∃ j, s.client.getD j (-1) = fd ∧ fd ≠ -1
  latest : ∀ fd ∈ s.allSet, fd ≤ s.clientLatestSocket

/-- Runs from set-up without a disconnect.  `adm` lists the admissions in
order (descriptor and peer address), `ann` the slots from which a `NEWUSER`
frame has been dispatched. -/
inductive QuietRun (cfg : Config) : List (Int × InAddr) → List Nat → State → Prop where
  | init (lsd : Int) (addr0 : InAddr) (buf0 : List Nat) (h : 0 ≤ lsd) :
    QuietRun cfg [] [] (initState cfg lsd addr0 buf0)
  | accept {adm : List (Int × InAddr)} {ann : List Nat} {s s1 : State} {newfd : Int}
    {addr : InAddr} {w : List Write} (hs : QuietRun cfg adm ann s) (hfd : 0 ≤ newfd)
    (h : acceptClient cfg s newfd addr = Outcome.running s1 w) :
    QuietRun cfg (adm ++ [(newfd, addr)]) ann s1
  | announce {adm : List (Int × InAddr)} {ann : List Nat} {s s1 : State} {i : Nat}
    {rd : ReadScript} {stray : Nat} {w : List Write} (hs : QuietRun cfg adm ann s)
    (hact : 0 ≤ s.client.getD i (-1))
    (h : dispatch cfg s i rd stray = Outcome.running (s1, Kind.announce) w) :
    QuietRun cfg adm (i :: ann) s1
  | chat {adm : List (Int × InAddr)} {ann : List Nat} {s s1 : State} {i : Nat}
    {rd : ReadScript} {stray : Nat} {w : List Write} (hs : QuietRun cfg adm ann s)
    (hact : 0 ≤ s.client.getD i (-1))
    (h : dispatch cfg s i rd stray = Outcome.running (s1, Kind.chat) w) :
    QuietRun cfg adm ann s1

/-- Slot a serviced item refers to; `none` for the listener. -/
def Serviced.slot? : Serviced → Option Nat
  | .listener _ => none
  | .slot i _ => some i

/-- Whether slot `j` is active and its descriptor is in the ready set. -/
def readySlot (s : State) (curSet : List Int) (j : Nat) : Bool :=
  decide (0 ≤ s.client.getD j (-1)) && decide (s.client.getD j (-1) ∈ curSet)

/-- Default entry for look-ups in a list of admissions. -/
def noPeer : Int × InAddr := (-1, ⟨0, 0, 0, 0⟩)

/-- Facts that hold along a run without disconnect: the admitted clients
fill the slots `0 .. adm.length - 1` in order of admission. -/
structure QuietInv (cfg : Config) (adm : List (Int × InAddr)) (ann : List Nat)
    (s : State) : Prop where
  len : s.client.length = cfg.FD_SETSIZE
  alen : s.addresses.length = cfg.MAXCLIENTS
  count : (adm.length : Int) = s.currentNewestClient + 1
  used : ∀ k, k < adm.length →
    s.client.getD k (-1) = (adm.getD k noPeer).1 ∧ 0 ≤ (adm.getD k noPeer).1
  free : ∀ k, adm.length ≤ k → s.client.getD k (-1) = -1
  addr : ∀ k, k < adm.length → s.addresses.getD k [] = inet_ntoa (adm.getD k noPeer).2
  names : ∀ k, k ∉ ann → s.usernames.getD k [] = []

/-! ## Example states

The tag and delimiter bytes of `demoConfig` stand in for the constants of
`server.h`; the table sizes are those of a Linux `fd_set`. -/

/-- A configuration for the examples. -/
def demoConfig : Config :=
  { FD_SETSIZE := 1024, MAXCLIENTS := 1024, NEWUSER := 1, USERLEFT := 2,
    MESSAGEDELIMITER := 124 }

/-- State after an admission that goes on; the state itself otherwise. -/
def afterAccept (cfg : Config) (s : State) (newfd : Int) (addr : InAddr) : State :=
  match acceptClient cfg s newfd addr with
  | .running s1 _ => s1
  | _ => s

/-- State after a dispatch that goes on; the state itself otherwise. -/
def afterDispatch (cfg : Config) (s : State) (i : Nat) (rd : ReadScript) (stray : Nat) :
    State :=
  match dispatch cfg s i rd stray with
  | .running (s1, _) _ => s1
  | _ => s

/-- A peer sends one whole frame: the text, padded with NUL to `BUFLEN` bytes. -/
def frameOf (text : List Nat) : ReadScript :=
  ⟨[text ++ List.replicate (BUFLEN - text.length) 0], ReadEnd.closed⟩

/-- The peer has closed the connection: the first `read` returns 0. -/
def hangUp : ReadScript := ⟨[], ReadEnd.closed⟩

/-- The first `read` fails and returns -1. -/
def readFails : ReadScript := ⟨[], ReadEnd.error⟩

/-- Peer 10.0.0.1. -/
def peerA : InAddr := ⟨10, 0, 0, 1⟩

/-- Peer 10.0.0.2. -/
def peerB : InAddr := ⟨10, 0, 0, 2⟩

/-- Peer 10.0.0.3. -/
def peerC : InAddr := ⟨10, 0, 0, 3⟩

/-- Set-up with the listener on descriptor 3 and a zeroed frame buffer. -/
def demoStart : State := initState demoConfig 3 ⟨0, 0, 0, 0⟩ (List.replicate BUFLEN 0)

/-- Peer A admitted on descriptor 4 (slot 0). -/
def demoA : State := afterAccept demoConfig demoStart 4 peerA

/-- Then peer B admitted on descriptor 5 (slot 1). -/
def demoAB : State := afterAccept demoConfig demoA 5 peerB

/-- Then peer C admitted on descriptor 6 (slot 2). -/
def demoABC : State := afterAccept demoConfig demoAB 6 peerC

/-- From `demoAB`, peer A has closed its connection: slot 0 is unused. -/
def demoB : State := afterDispatch demoConfig demoAB 0 hangUp 0

/-- From `demoABC`, peer B has closed its connection: slot 1 is unused. -/
def demoAC : State := afterDispatch demoConfig demoABC 1 hangUp 0

/-- From `demoAB`, peer A has sent the chat text "hi". -/
def demoABchat : State := afterDispatch demoConfig demoAB 0 (frameOf [104, 105]) 0

/-- From `demoAB`, peer A has announced the nickname "al". -/
def demoABnamed : State := afterDispatch demoConfig demoAB 0 (frameOf [1, 97, 108]) 0

/-- One iteration from `demoABC`: the listener and the descriptors of slots
0 and 2 are ready, `accept` returns descriptor 7, each ready peer has sent
the chat text "hi". -/
def demoWake : WakeInput :=
  { curSet := [3, 4, 6]
    numReadibleDescriptors := 3
    newSocketDescriptor := 7
    newAddress := ⟨10, 0, 0, 4⟩
    reads := fun _ => frameOf [104, 105]
    stray := fun _ => 0 }

/-- State after `demoWake`. -/
def demoWoken : State :=
  match wake demoConfig demoABC demoWake with
  | .running s1 _ => s1
  | _ => demoABC

/-! ## Helper lemmas -/

theorem getD_set {α : Type} (l : List α) (i j : Nat) (a d : α) :
    (l.set i a).getD j d = if i = j ∧ i < l.length then a else l.getD j d := by
  simp only [List.getD_eq_getElem?_getD, List.getElem?_set]
  by_cases h : i = j
  · subst h
    by_cases h2 : i < l.length
    · simp [h2]
    · simp [h2, List.getElem?_eq_none (Nat.le_of_not_lt h2)]
  · simp [h]

theorem findSlotFrom_spec (client : List Int) (fuel i : Nat) :
    i ≤ findSlotFrom client fuel i ∧ findSlotFrom client fuel i ≤ i + fuel ∧
    (∀ j, i ≤ j → j < findSlotFrom client fuel i → ¬ client.getD j 0 < 0) ∧
    (findSlotFrom client fuel i < i + fuel → client.getD (findSlotFrom client fuel i) 0 < 0) := by
  induction fuel generalizing i with
  | zero =>
    refine ⟨le_refl _, le_refl _, ?_, ?_⟩
    · intro j h1 h2
      simp only [findSlotFrom] at h2
      omega
    · intro h
      simp only [findSlotFrom] at h
      omega
  | succ n ih =>
    unfold findSlotFrom
    by_cases h : client.getD i 0 < 0
    · rw [if_pos h]
      refine ⟨le_refl _, by omega, ?_, fun _ => h⟩
      intro j h1 h2
      omega
    · rw [if_neg h]
      obtain ⟨a, b, c, d⟩ := ih (i + 1)
      refine ⟨by omega, by omega, ?_, ?_⟩
      · intro j h1 h2
        by_cases hj : j = i
        · subst hj
          exact h
        · exact c j (by omega) h2
      · intro hlt
        exact d (by omega)

theorem accept_running {cfg : Config} {s s1 : State} {newfd : Int} {addr : InAddr}
    {w : List Write} (h : acceptClient cfg s newfd addr = Outcome.running s1 w) :
    newfd ≠ -1 ∧ findSlot cfg s.client ≠ cfg.FD_SETSIZE ∧
    findSlot cfg s.client < cfg.MAXCLIENTS ∧
    s1 = { s with
            client := s.client.set (findSlot cfg s.client) newfd
            addresses := s.addresses.set (findSlot cfg s.client) (inet_ntoa addr)
            allSet := FD_SET newfd s.allSet
            clientLatestSocket :=
              if newfd > s.clientLatestSocket then newfd else s.clientLatestSocket
            currentNewestClient :=
              if (findSlot cfg s.client : Int) > s.currentNewestClient
              then (findSlot cfg s.client : Int) else s.currentNewestClient
            clientAddress := addr } := by
  unfold acceptClient at h
  split at h
  · cases h
  · rename_i h0
    simp only [] at h
    split at h
    · cases h
    · split at h
      · cases h
      · rename_i h2
        split at h
        · cases h
        · rename_i h3
          injection h with h4 h5
          exact ⟨h0, h2, by omega, h4.symm⟩

theorem dispatch_running {cfg : Config} {s s1 : State} {i : Nat} {rd : ReadScript}
    {stray : Nat} {k : Kind} {w : List Write}
    (h : dispatch cfg s i rd stray = Outcome.running (s1, k) w) :
    s1.listeningSocketDescriptor = s.listeningSocketDescriptor ∧
    s1.clientLatestSocket = s.clientLatestSocket ∧
    s1.currentNewestClient = s.currentNewestClient ∧
    s1.clientAddress = s.clientAddress ∧
    ((k = Kind.left ∧ (readLoop rd.last rd.chunks s.buf 0 BUFLEN).2 = 0 ∧
        s1.client = s.client.set i (-1) ∧
        s1.allSet = FD_CLR (s.client.getD i (-1)) s.allSet ∧
        s1.addresses = s.addresses.set i [] ∧ s1.usernames = s.usernames.set i []) ∨
     (k = Kind.announce ∧ s1.client = s.client ∧ s1.allSet = s.allSet ∧
        s1.addresses = s.addresses ∧ ∃ tok, s1.usernames = s.usernames.set i tok) ∨
     (k = Kind.chat ∧ s1.client = s.client ∧ s1.allSet = s.allSet ∧
        s1.addresses = s.addresses ∧ s1.usernames = s.usernames)) := by
  unfold dispatch at h
  simp only [] at h
  split at h
  · cases h
  · split at h
    · rename_i hc
      split at h
      · cases h
      · injection h with h1 h2
        injection h1 with h3 h4
        subst h3 h4
        exact ⟨rfl, rfl, rfl, rfl, Or.inl ⟨rfl, hc.2, rfl, rfl, rfl, rfl⟩⟩
    · split at h
      · split at h
        · cases h
        · split at h
          · cases h
          · injection h with h1 h2
            injection h1 with h3 h4
            subst h3 h4
            exact ⟨rfl, rfl, rfl, rfl, Or.inr (Or.inl ⟨rfl, rfl, rfl, rfl, _, rfl⟩)⟩
      · split at h
        · cases h
        · split at h
          · cases h
          · injection h with h1 h2
            injection h1 with h3 h4
            subst h3 h4
            exact ⟨rfl, rfl, rfl, rfl, Or.inr (Or.inr ⟨rfl, rfl, rfl, rfl, rfl⟩)⟩

theorem getD_replicate_self {α : Type} (n j : Nat) (a : α) :
    (List.replicate n a).getD j a = a := by
  simp only [List.getD_eq_getElem?_getD, List.getElem?_replicate]
  split <;> rfl

theorem getD_nonneg_lt {l : List Int} {j : Nat} (h : 0 ≤ l.getD j (-1)) : j < l.length := by
  by_contra hlt
  rw [List.getD_eq_getElem?_getD, List.getElem?_eq_none (Nat.le_of_not_lt hlt)] at h
  simp at h

theorem getD_default_irrel {l : List Int} {j : Nat} (h : j < l.length) (a b : Int) :
    l.getD j a = l.getD j b := by
  simp only [List.getD_eq_getElem?_getD, List.getElem?_eq_getElem h, Option.getD_some]

theorem getD_mem_of_lt {l : List Int} {j : Nat} (h : j < l.length) (a : Int) :
    l.getD j a ∈ l := by
  simp only [List.getD_eq_getElem?_getD, List.getElem?_eq_getElem h, Option.getD_some]
  exact List.getElem_mem h

theorem mem_FD_SET (fd x : Int) (set : List Int) : x ∈ FD_SET fd set ↔ x = fd ∨ x ∈ set := by
  unfold FD_SET
  split
  · constructor
    · intro h
      exact Or.inr h
    · rintro (h | h)
      · subst h
        assumption
      · exact h
  · simp

theorem mem_FD_CLR (fd x : Int) (set : List Int) : x ∈ FD_CLR fd set ↔ x ∈ set ∧ x ≠ fd := by
  unfold FD_CLR
  simp [List.mem_filter]

theorem findSlot_facts (cfg : Config) (s : State) (hlen : s.client.length = cfg.FD_SETSIZE)
    (hne : findSlot cfg s.client ≠ cfg.FD_SETSIZE) :
    findSlot cfg s.client < s.client.length ∧
    s.client.getD (findSlot cfg s.client) (-1) < 0 ∧
    ∀ j, j < findSlot cfg s.client → 0 ≤ s.client.getD j (-1) := by
  obtain ⟨_, b, c, d⟩ := findSlotFrom_spec s.client cfg.FD_SETSIZE 0
  have hlt : findSlot cfg s.client < s.client.length := by
    unfold findSlot at hne ⊢
    omega
  refine ⟨hlt, ?_, ?_⟩
  · rw [getD_default_irrel hlt (-1) 0]
    apply d
    unfold findSlot at hlt
    omega
  · intro j hj
    have hj2 : j < s.client.length := by omega
    rw [getD_default_irrel hj2 (-1) 0]
    have := c j (Nat.zero_le _) hj
    omega

theorem inv_init (cfg : Config) (lsd : Int) (addr0 : InAddr) (buf0 : List Nat) (h : 0 ≤ lsd) :
    Inv cfg (initState cfg lsd addr0 buf0) := by
  refine ⟨?_, ?_, ?_, ?_, ?_, ?_, ?_, ?_, ?_, ?_⟩
  · simp [initState]
  · exact h
  · intro j
    left
    exact getD_replicate_self _ _ _
  · intro j hj
    simp only [initState, getD_replicate_self] at hj
    omega
  · simp [initState]
  · simp only [initState]
    omega
  · intro j k hj
    simp only [initState, getD_replicate_self] at hj
    omega
  · intro j hj
    simp only [initState, getD_replicate_self] at hj
    omega
  · intro fd
    simp only [initState, getD_replicate_self, List.mem_singleton]
    constructor
    · intro h1
      exact Or.inl h1
    · rintro (h1 | ⟨_, h1, h2⟩)
      · exact h1
      · exact absurd h1.symm h2
  · intro fd hfd
    simp only [initState, List.mem_singleton] at hfd ⊢
    omega

theorem inv_accept {cfg : Config} {s s1 : State} {newfd : Int} {addr : InAddr}
    {w : List Write} (hI : Inv cfg s) (hfd : 0 ≤ newfd) (hfresh : Fresh s newfd)
    (h : acceptClient cfg s newfd addr = Outcome.running s1 w) : Inv cfg s1 := by
  obtain ⟨_, hne, _, hs1⟩ := accept_running h
  obtain ⟨hlt, hneg, _⟩ := findSlot_facts cfg s hI.len hne
  have hnot : ∀ j, s.client.getD j (-1) ≠ newfd := by
    intro j hj
    have hjl : j < s.client.length := getD_nonneg_lt (by rw [hj]; exact hfd)
    exact hfresh.2 (hj ▸ getD_mem_of_lt hjl (-1))
  subst hs1
  refine ⟨?_, ?_, ?_, ?_, ?_, ?_, ?_, ?_, ?_, ?_⟩
  · simp only [List.length_set]
    exact hI.len
  · exact hI.lsd_nonneg
  · intro j
    simp only [getD_set]
    split
    · exact Or.inr hfd
    · exact hI.entries j
  · intro j
    simp only [getD_set]
    split
    · rename_i hij
      intro _
      rw [← hij.1]
      split <;> omega
    · intro hj
      have := hI.bound j hj
      split <;> omega
  · have := hI.cnc_lower
    simp only []
    split <;> omega
  · have := hI.cnc_upper
    have := hI.len
    simp only []
    split <;> omega
  · intro j k
    simp only [getD_set]
    split
    · rename_i hij
      split
      · rename_i hik
        intro _ _
        omega
      · intro _ hk
        exact absurd hk.symm (hnot k)
    · split
      · intro _ hj
        exact absurd hj (hnot j)
      · exact hI.distinct j k
  · intro j
    simp only [getD_set]
    split
    · exact hfresh.1
    · exact hI.lsd_notin j
  · intro fd
    simp only [mem_FD_SET, hI.watched fd, getD_set]
    constructor
    · rintro (h1 | h1 | ⟨j, h1, h2⟩)
      · right
        refine ⟨findSlot cfg s.client, ?_, by omega⟩
        rw [if_pos ⟨rfl, hlt⟩]
        exact h1.symm
      · exact Or.inl h1
      · right
        refine ⟨j, ?_, h2⟩
        rw [if_neg]
        · exact h1
        · rintro ⟨hij, _⟩
          rw [hij] at hneg
          have := hI.entries j
          omega
    · rintro (h1 | ⟨j, h1, h2⟩)
      · exact Or.inr (Or.inl h1)
      · split at h1
        · exact Or.inl h1.symm
        · exact Or.inr (Or.inr ⟨j, h1, h2⟩)
  · intro fd
    simp only [mem_FD_SET]
    rintro (h1 | h1)
    · split <;> omega
    · have := hI.latest fd h1
      split <;> omega

theorem inv_of_fields {cfg : Config} {s s1 : State} (hI : Inv cfg s)
    (h1 : s1.listeningSocketDescriptor = s.listeningSocketDescriptor)
    (h2 : s1.clientLatestSocket = s.clientLatestSocket)
    (h3 : s1.currentNewestClient = s.currentNewestClient)
    (h4 : s1.client = s.client) (h5 : s1.allSet = s.allSet) : Inv cfg s1 := by
  refine ⟨?_, ?_, ?_, ?_, ?_, ?_, ?_, ?_, ?_, ?_⟩
  · rw [h4]; exact hI.len
  · rw [h1]; exact hI.lsd_nonneg
  · rw [h4]; exact hI.entries
  · rw [h4, h3]; exact hI.bound
  · rw [h3]; exact hI.cnc_lower
  · rw [h3]; exact hI.cnc_upper
  · rw [h4]; exact hI.distinct
  · rw [h4, h1]; exact hI.lsd_notin
  · rw [h4, h5, h1]; exact hI.watched
  · rw [h5, h2]; exact hI.latest

theorem inv_dispatch {cfg : Config} {s s1 : State} {i : Nat} {rd : ReadScript}
    {stray : Nat} {k : Kind} {w : List Write} (hI : Inv cfg s)
    (hact : 0 ≤ s.client.getD i (-1))
    (h : dispatch cfg s i rd stray = Outcome.running (s1, k) w) : Inv cfg s1 := by
  obtain ⟨h1, h2, h3, _, hk⟩ := dispatch_running h
  rcases hk with ⟨_, _, h4, h5, _, _⟩ | ⟨_, h4, h5, _, _⟩ | ⟨_, h4, h5, _, _⟩
  · have hil : i < s.client.length := getD_nonneg_lt hact
    refine ⟨?_, ?_, ?_, ?_, ?_, ?_, ?_, ?_, ?_, ?_⟩
    · rw [h4, List.length_set]; exact hI.len
    · rw [h1]; exact hI.lsd_nonneg
    · intro j
      rw [h4, getD_set]
      split
      · exact Or.inl rfl
      · exact hI.entries j
    · intro j
      rw [h4, h3, getD_set]
      split
      · intro hj
        omega
      · exact hI.bound j
    · rw [h3]; exact hI.cnc_lower
    · rw [h3]; exact hI.cnc_upper
    · intro j k
      rw [h4, getD_set, getD_set]
      split
      · intro hj
        omega
      · split
        · intro hj hjk
          omega
        · exact hI.distinct j k
    · intro j
      rw [h4, h1, getD_set]
      split
      · have := hI.lsd_nonneg
        omega
      · exact hI.lsd_notin j
    · intro fd
      rw [h5, h4, h1, mem_FD_CLR, hI.watched fd]
      constructor
      · rintro ⟨h6 | ⟨j, h6, h7⟩, h8⟩
        · exact Or.inl h6
        · right
          refine ⟨j, ?_, h7⟩
          rw [getD_set, if_neg]
          · exact h6
          · rintro ⟨hij, _⟩
            rw [hij] at h8
            exact h8 h6.symm
      · rintro (h6 | ⟨j, h6, h7⟩)
        · refine ⟨Or.inl h6, ?_⟩
          rw [h6]
          exact fun hc => hI.lsd_notin i hc.symm
        · rw [getD_set] at h6
          split at h6
          · exact absurd h6.symm h7
          · rename_i hij
            refine ⟨Or.inr ⟨j, h6, h7⟩, ?_⟩
            intro hc
            have := hI.distinct i j hact (by rw [h6, hc])
            exact hij ⟨this, hil⟩
    · intro fd
      rw [h5, h2, mem_FD_CLR]
      intro hfd
      exact hI.latest fd hfd.1
  · exact inv_of_fields hI h1 h2 h3 h4 h5
  · exact inv_of_fields hI h1 h2 h3 h4 h5

theorem after_running {τ α : Type} {pre : List τ} {o : Outcome τ α} {a : α} {w : List τ}
    (h : o.after pre = Outcome.running a w) : ∃ w0, o = Outcome.running a w0 ∧ w = pre ++ w0 := by
  cases o with
  | running a0 w0 =>
    simp only [Outcome.after] at h
    injection h with h1 h2
    exact ⟨w0, by rw [h1], h2.symm⟩
  | exited w0 => simp [Outcome.after] at h
  | undefined w0 => simp [Outcome.after] at h

theorem inv_scan (cfg : Config) (inp : WakeInput) (fuel : Nat) :
    ∀ (i : Nat) (s : State) (n : Int) (s1 : State) (tr : List Serviced),
      Inv cfg s → scan cfg inp fuel i s n = Outcome.running s1 tr → Inv cfg s1 := by
  induction fuel with
  | zero =>
    intro i s n s1 tr hI h
    simp only [scan] at h
    injection h with h1 _
    rw [← h1]
    exact hI
  | succ fuel ih =>
    intro i s n s1 tr hI h
    unfold scan at h
    split at h
    · exact ih (i + 1) s n s1 tr hI h
    · rename_i hnn
      split at h
      · split at h
        · cases h
        · cases h
        · rename_i s2 w hd
          obtain ⟨w0, h0, _⟩ := after_running h
          exact ih (i + 1) s2 n s1 w0 (inv_dispatch hI (by omega) hd) h0
        · rename_i s2 k w hnl hd
          have hI2 : Inv cfg s2 := inv_dispatch hI (by omega) hd
          split at h
          · injection h with h1 _
            rw [← h1]
            exact hI2
          · obtain ⟨w0, h0, _⟩ := after_running h
            exact ih (i + 1) s2 (n - 1) s1 w0 hI2 h0
      · exact ih (i + 1) s n s1 tr hI h

theorem inv_wake {cfg : Config} {s s1 : State} {inp : WakeInput} {tr : List Serviced}
    (hI : Inv cfg s)
    (hacc : s.listeningSocketDescriptor ∈ inp.curSet → -1 ≤ inp.newSocketDescriptor)
    (hfresh : s.listeningSocketDescriptor ∈ inp.curSet → Fresh s inp.newSocketDescriptor)
    (h : wake cfg s inp = Outcome.running s1 tr) : Inv cfg s1 := by
  unfold wake at h
  split at h
  · rename_i hl
    have hacc := hacc hl
    have hfresh := hfresh hl
    split at h
    · cases h
    · cases h
    · rename_i s2 w hadm
      have hI2 : Inv cfg s2 := inv_accept hI (by
        have := (accept_running hadm).1
        omega) hfresh hadm
      split at h
      · injection h with h1 _
        rw [← h1]
        exact hI2
      · obtain ⟨w0, h0, _⟩ := after_running h
        exact inv_scan cfg inp _ 0 s2 _ s1 w0 hI2 h0
  · exact inv_scan cfg inp _ 0 s _ s1 tr hI h

theorem reachable_inv {cfg : Config} {s : State} (h : Reachable cfg s) : Inv cfg s := by
  induction h with
  | init lsd addr0 buf0 h => exact inv_init cfg lsd addr0 buf0 h
  | accept _ hfd hfresh h ih => exact inv_accept ih hfd hfresh h
  | dispatch _ hact h ih => exact inv_dispatch ih hact h
  | wake _ hacc hfresh h ih => exact inv_wake ih hacc hfresh h

theorem findSlot_eq (cfg : Config) (client : List Int) (i : Nat)
    (hi : i < cfg.FD_SETSIZE) (hneg : client.getD i 0 < 0)
    (hlow : ∀ j, j < i → ¬ client.getD j 0 < 0) : findSlot cfg client = i := by
  obtain ⟨_, b, c, d⟩ := findSlotFrom_spec client cfg.FD_SETSIZE 0
  unfold findSlot
  rcases Nat.lt_trichotomy (findSlotFrom client cfg.FD_SETSIZE 0) i with h | h | h
  · exact absurd (d (by omega)) (hlow _ h)
  · exact h
  · exact absurd hneg (c i (Nat.zero_le _) h)

theorem accept_eq (cfg : Config) (s : State) (newfd : Int) (addr : InAddr)
    (hfd : newfd ≠ -1) (hfit : ∀ f ∈ rosterFrames cfg s, fits f = true)
    (hslot : findSlot cfg s.client ≠ cfg.FD_SETSIZE)
    (hrow : findSlot cfg s.client < cfg.MAXCLIENTS) :
    acceptClient cfg s newfd addr =
      Outcome.running
        { s with
          client := s.client.set (findSlot cfg s.client) newfd
          addresses := s.addresses.set (findSlot cfg s.client) (inet_ntoa addr)
          allSet := FD_SET newfd s.allSet
          clientLatestSocket :=
            if newfd > s.clientLatestSocket then newfd else s.clientLatestSocket
          currentNewestClient :=
            if (findSlot cfg s.client : Int) > s.currentNewestClient
            then (findSlot cfg s.client : Int) else s.currentNewestClient
          clientAddress := addr }
        ((rosterFrames cfg s).map (Write.mk newfd)) := by
  have hall : (rosterFrames cfg s).all fits = true := List.all_eq_true.mpr hfit
  have htw : (rosterFrames cfg s).takeWhile fits = rosterFrames cfg s :=
    List.takeWhile_eq_self_iff.mpr hfit
  unfold acceptClient
  rw [if_neg hfd]
  simp only [hall, htw, Bool.true_eq_false, if_false]
  rw [if_neg hslot, if_neg (by omega)]

theorem accept_trace (cfg : Config) (s : State) (newfd : Int) (addr : InAddr)
    (hfd : newfd ≠ -1) (hfit : ∀ f ∈ rosterFrames cfg s, fits f = true) :
    (acceptClient cfg s newfd addr).trace = (rosterFrames cfg s).map (Write.mk newfd) := by
  have hall : (rosterFrames cfg s).all fits = true := List.all_eq_true.mpr hfit
  have htw : (rosterFrames cfg s).takeWhile fits = rosterFrames cfg s :=
    List.takeWhile_eq_self_iff.mpr hfit
  unfold acceptClient
  rw [if_neg hfd]
  simp only [hall, htw, Bool.true_eq_false, if_false]
  split
  · rfl
  · split <;> rfl

/-! ## The watched set (C9) -/

/-- C9: at every state reachable by admissions, message dispatches and
disconnects (the descriptor `accept` returns never being one that is still
open), `allSet` holds exactly the listening descriptor and the descriptors
of the slots whose `client` entry is not -1, and `clientLatestSocket` is at
least every descriptor in `allSet`. -/
theorem watched_set_invariant {cfg : Config} {s : State} (h : Reachable cfg s) :
    (∀ fd, fd ∈ s.allSet ↔
      fd = s.listeningSocketDescriptor ∨
        ∃ j, j < cfg.FD_SETSIZE ∧ s.client.getD j (-1) = fd ∧ fd ≠ -1) ∧
    (∀ fd, fd ∈ s.allSet → fd ≤ s.clientLatestSocket) := by
  have hI := reachable_inv h
  refine ⟨?_, hI.latest⟩
  intro fd
  rw [hI.watched fd]
  constructor
  · rintro (h1 | ⟨j, h1, h2⟩)
    · exact Or.inl h1
    · right
      refine ⟨j, ?_, h1, h2⟩
      rw [← hI.len]
      apply getD_nonneg_lt
      have := hI.entries j
      omega
  · rintro (h1 | ⟨j, _, h1, h2⟩)
    · exact Or.inl h1
    · exact Or.inr ⟨j, h1, h2⟩

/-! ## First-fit allocation (C6) -/

/-- C6: in a reachable state with an unused slot (inside both tables), an
admission whose roster frames fit their buffer goes on, stores the new
descriptor at the lowest index `i` whose entry is -1 and leaves every other
entry of `client` as it was; and when the client just admitted into slot
`i` disconnects, the next admission stores its descriptor in slot `i`
again. -/
theorem first_fit_allocation {cfg : Config} {s : State} (hR : Reachable cfg s)
    (newfd : Int) (addr : InAddr) (hfd : 0 ≤ newfd)
    (hfree : ∃ j, j < cfg.FD_SETSIZE ∧ j < cfg.MAXCLIENTS ∧ s.client.getD j (-1) = -1)
    (hfit : ∀ f ∈ rosterFrames cfg s, fits f = true) :
    ∃ i s1 w, acceptClient cfg s newfd addr = Outcome.running s1 w ∧
      i < cfg.FD_SETSIZE ∧ s.client.getD i (-1) = -1 ∧
      (∀ j, j < i → s.client.getD j (-1) ≠ -1) ∧
      s1.client.getD i (-1) = newfd ∧
      (∀ j, j ≠ i → s1.client.getD j (-1) = s.client.getD j (-1)) ∧
      (∀ rd stray s2 w2,
        dispatch cfg s1 i rd stray = Outcome.running (s2, Kind.left) w2 →
        ∀ newfd2 addr2, 0 ≤ newfd2 → (∀ f ∈ rosterFrames cfg s2, fits f = true) →
          ∃ s3 w3, acceptClient cfg s2 newfd2 addr2 = Outcome.running s3 w3 ∧
            s3.client.getD i (-1) = newfd2) := by
  have hI := reachable_inv hR
  obtain ⟨j0, hj0, hj0m, hj0c⟩ := hfree
  have hj0l : j0 < s.client.length := by rw [hI.len]; exact hj0
  obtain ⟨_, _, c, _⟩ := findSlotFrom_spec s.client cfg.FD_SETSIZE 0
  have hle : findSlot cfg s.client ≤ j0 := by
    by_contra hgt
    have := c j0 (Nat.zero_le _) (by unfold findSlot at hgt; omega)
    rw [getD_default_irrel hj0l 0 (-1), hj0c] at this
    omega
  have hslot : findSlot cfg s.client ≠ cfg.FD_SETSIZE := by omega
  obtain ⟨hlt, hneg, hlow⟩ := findSlot_facts cfg s hI.len hslot
  have hadm := accept_eq cfg s newfd addr (by omega) hfit hslot (by omega)
  refine ⟨findSlot cfg s.client, _, _, hadm, by omega, ?_, ?_, ?_, ?_, ?_⟩
  · have := hI.entries (findSlot cfg s.client)
    omega
  · intro j hj
    have := hlow j hj
    omega
  · rw [getD_set, if_pos ⟨rfl, hlt⟩]
  · intro j hj
    simp only [getD_set]
    rw [if_neg]
    rintro ⟨h1, _⟩
    exact hj h1.symm
  · intro rd stray s2 w2 hd newfd2 addr2 hfd2 hfit2
    obtain ⟨_, _, _, _, hk⟩ := dispatch_running hd
    rcases hk with ⟨_, _, h4, _⟩ | ⟨hk, _⟩ | ⟨hk, _⟩
    · simp only [] at h4
      have hlen2 : s2.client.length = s.client.length := by
        rw [h4, List.length_set, List.length_set]
      have hi2 : findSlot cfg s.client < s2.client.length := by omega
      have hfs : findSlot cfg s2.client = findSlot cfg s.client := by
        apply findSlot_eq cfg s2.client _ (by omega)
        · rw [h4, getD_set, if_pos ⟨rfl, by rw [List.length_set]; exact hlt⟩]
          omega
        · intro j hj
          have hjl : j < s2.client.length := by omega
          rw [getD_default_irrel hjl 0 (-1), h4, getD_set, if_neg (by omega), getD_set,
            if_neg (by omega)]
          have := hlow j hj
          omega
      have hadm2 := accept_eq cfg s2 newfd2 addr2 (by omega) hfit2
        (by rw [hfs]; exact hslot) (by rw [hfs]; omega)
      refine ⟨_, _, hadm2, ?_⟩
      rw [getD_set, if_pos ⟨hfs, by rw [hfs]; exact hi2⟩]
    · cases hk
    · cases hk

/-! ## Roster completeness (C4) -/

theorem quiet_inv_accept {cfg : Config} {adm : List (Int × InAddr)} {ann : List Nat}
    {s s1 : State} {newfd : Int} {addr : InAddr} {w : List Write}
    (hQ : QuietInv cfg adm ann s) (hfd : 0 ≤ newfd)
    (h : acceptClient cfg s newfd addr = Outcome.running s1 w) :
    QuietInv cfg (adm ++ [(newfd, addr)]) ann s1 := by
  obtain ⟨_, hne, hrow, hs1⟩ := accept_running h
  obtain ⟨hlt, hneg, hlow⟩ := findSlot_facts cfg s hQ.len hne
  have hN : findSlot cfg s.client = adm.length := by
    rcases Nat.lt_trichotomy (findSlot cfg s.client) adm.length with h1 | h1 | h1
    · have := hQ.used _ h1
      omega
    · exact h1
    · have := hlow _ h1
      have := hQ.free adm.length (le_refl _)
      omega
  rw [hN] at hs1 hlt hrow
  subst hs1
  refine ⟨?_, ?_, ?_, ?_, ?_, ?_, ?_⟩
  · simp only [List.length_set]
    exact hQ.len
  · simp only [List.length_set]
    exact hQ.alen
  · have := hQ.count
    simp only [List.length_append, List.length_singleton, Nat.cast_add, Nat.cast_one]
    split <;> omega
  · intro k hk
    simp only [List.length_append, List.length_singleton] at hk
    simp only [getD_set]
    by_cases hkN : adm.length = k
    · rw [if_pos ⟨hkN, hlt⟩, List.getD_append_right _ _ _ _ (by omega)]
      simp [← hkN, hfd]
    · rw [if_neg (fun hc => hkN hc.1), List.getD_append _ _ _ _ (by omega)]
      exact hQ.used k (by omega)
  · intro k hk
    simp only [List.length_append, List.length_singleton] at hk
    simp only [getD_set]
    rw [if_neg (by omega)]
    exact hQ.free k (by omega)
  · intro k hk
    simp only [List.length_append, List.length_singleton] at hk
    simp only [getD_set]
    by_cases hkN : adm.length = k
    · rw [if_pos ⟨hkN, by rw [hQ.alen]; exact hrow⟩,
        List.getD_append_right _ _ _ _ (by omega)]
      simp [← hkN]
    · rw [if_neg (fun hc => hkN hc.1), List.getD_append _ _ _ _ (by omega)]
      exact hQ.addr k (by omega)
  · exact hQ.names

theorem quiet_inv {cfg : Config} {adm : List (Int × InAddr)} {ann : List Nat} {s : State}
    (h : QuietRun cfg adm ann s) : QuietInv cfg adm ann s := by
  induction h with
  | init lsd addr0 buf0 h =>
    refine ⟨?_, ?_, ?_, ?_, ?_, ?_, ?_⟩
    · simp [initState]
    · simp [initState, InitializeAddresses]
    · simp [initState]
    · intro k hk
      simp at hk
    · intro k _
      exact getD_replicate_self _ _ _
    · intro k hk
      simp at hk
    · intro k _
      exact getD_replicate_self _ _ _
  | accept _ hfd h ih => exact quiet_inv_accept ih hfd h
  | announce _ _ h ih =>
    obtain ⟨_, _, h3, _, hk⟩ := dispatch_running h
    rcases hk with ⟨hk, _⟩ | ⟨_, h4, _, h6, tok, h7⟩ | ⟨hk, _⟩
    · cases hk
    · refine ⟨?_, ?_, ?_, ?_, ?_, ?_, ?_⟩
      · rw [h4]; exact ih.len
      · rw [h6]; exact ih.alen
      · rw [h3]; exact ih.count
      · rw [h4]; exact ih.used
      · rw [h4]; exact ih.free
      · rw [h6]; exact ih.addr
      · intro k hk
        rw [h7, getD_set, if_neg]
        · exact ih.names k (fun hc => hk (List.mem_cons_of_mem _ hc))
        · rintro ⟨hc, _⟩
          exact hk (hc ▸ List.mem_cons_self _ _)
    · cases hk
  | chat _ _ h ih =>
    obtain ⟨_, _, h3, _, hk⟩ := dispatch_running h
    rcases hk with ⟨hk, _⟩ | ⟨hk, _⟩ | ⟨_, h4, _, h6, h7⟩
    · cases hk
    · cases hk
    · refine ⟨?_, ?_, ?_, ?_, ?_, ?_, ?_⟩
      · rw [h4]; exact ih.len
      · rw [h6]; exact ih.alen
      · rw [h3]; exact ih.count
      · rw [h4]; exact ih.used
      · rw [h4]; exact ih.free
      · rw [h6]; exact ih.addr
      · rw [h7]; exact ih.names

/-- C4: after a run from set-up with the admissions `adm` (N of them) and no
disconnect, nickname announcements and chat frames interleaved at will, the
next admission, provided its roster frames fit their buffer, writes exactly
N frames, all to the new descriptor; the k-th is the `NEWUSER` tag, the
nickname stored for slot k, the delimiter and the address of the k-th
admitted peer.  Slot k holds the k-th admitted descriptor, and the nickname
of a slot that has not announced is empty. -/
theorem roster_completeness {cfg : Config} {adm : List (Int × InAddr)} {ann : List Nat}
    {s : State} (hrun : QuietRun cfg adm ann s) (newfd : Int) (addr : InAddr)
    (hfd : newfd ≠ -1)
    (hfit : ∀ k, k < adm.length →
      fits (cfg.NEWUSER :: (s.usernames.getD k [] ++
        cfg.MESSAGEDELIMITER :: inet_ntoa (adm.getD k noPeer).2)) = true) :
    (acceptClient cfg s newfd addr).trace =
      (List.range adm.length).map (fun k =>
        Write.mk newfd (cfg.NEWUSER :: (s.usernames.getD k [] ++
          cfg.MESSAGEDELIMITER :: inet_ntoa (adm.getD k noPeer).2))) ∧
    (∀ k, k < adm.length → s.client.getD k (-1) = (adm.getD k noPeer).1) ∧
    (∀ k, k ∉ ann → s.usernames.getD k [] = []) := by
  have hQ := quiet_inv hrun
  have hcount : loopCount s = adm.length := by
    have := hQ.count
    unfold loopCount
    omega
  have hframes : rosterFrames cfg s =
      (List.range adm.length).map (fun k =>
        cfg.NEWUSER :: (s.usernames.getD k [] ++
          cfg.MESSAGEDELIMITER :: inet_ntoa (adm.getD k noPeer).2)) := by
    unfold rosterFrames
    rw [hcount]
    apply List.map_congr_left
    intro k hk
    unfold rosterFrame
    rw [hQ.addr k (List.mem_range.mp hk)]
  refine ⟨?_, fun k hk => (hQ.used k hk).1, hQ.names⟩
  rw [accept_trace cfg s newfd addr hfd, hframes, List.map_map]
  · rfl
  · intro f hf
    rw [hframes] at hf
    obtain ⟨k, hk, rfl⟩ := List.mem_map.mp hf
    exact hfit k (List.mem_range.mp hk)

/-! ## Read errors (C7) -/

theorem decimal_bytes (n : Nat) (hn : n < 256) : ∀ b ∈ decimal n, 48 ≤ b ∧ b ≤ 57 := by
  intro b hb
  unfold decimal at hb
  split at hb
  · simp only [List.mem_singleton] at hb
    omega
  · split at hb
    · simp only [List.mem_cons, List.mem_singleton, List.not_mem_nil, or_false] at hb
      omega
    · simp only [List.mem_cons, List.mem_singleton, List.not_mem_nil, or_false] at hb
      omega

theorem decimal_length (n : Nat) : (decimal n).length ≤ 3 := by
  unfold decimal
  split
  · simp
  · split <;> simp

theorem inet_ntoa_bytes (a : InAddr) : ∀ b ∈ inet_ntoa a, 46 ≤ b ∧ b ≤ 57 := by
  intro b hb
  unfold inet_ntoa at hb
  simp only [List.mem_append, List.mem_cons] at hb
  have h1 := decimal_bytes (a.o1 % 256) (Nat.mod_lt _ (by decide)) b
  have h2 := decimal_bytes (a.o2 % 256) (Nat.mod_lt _ (by decide)) b
  have h3 := decimal_bytes (a.o3 % 256) (Nat.mod_lt _ (by decide)) b
  have h4 := decimal_bytes (a.o4 % 256) (Nat.mod_lt _ (by decide)) b
  rcases hb with hb | hb | hb | hb | hb | hb | hb
  · have := h1 hb; omega
  · omega
  · have := h2 hb; omega
  · omega
  · have := h3 hb; omega
  · omega
  · have := h4 hb; omega

theorem inet_ntoa_length (a : InAddr) : (inet_ntoa a).length ≤ 15 := by
  unfold inet_ntoa
  have h1 := decimal_length (a.o1 % 256)
  have h2 := decimal_length (a.o2 % 256)
  have h3 := decimal_length (a.o3 % 256)
  have h4 := decimal_length (a.o4 % 256)
  simp only [List.length_append, List.length_cons]
  omega

theorem formatFrom_plain (l : List Nat) (h : ∀ b ∈ l, b ≠ 37) :
    formatFrom false l = some l := by
  induction l with
  | nil => rfl
  | cons b rest ih =>
    unfold formatFrom
    rw [if_neg (h b (List.mem_cons_self _ _)),
      ih (fun c hc => h c (List.mem_cons_of_mem _ hc))]
    rfl

theorem cstr_plain (l : List Nat) (h : ∀ b ∈ l, b ≠ 0) : cstr l = l := by
  unfold cstr
  rw [List.takeWhile_eq_self_iff]
  intro b hb
  exact decide_eq_true (h b hb)

/-- C7, as amended: when the first `read` on slot `i` returns a negative
value while the frame buffer is empty (its first byte is zero, as line 237
leaves it), the dispatcher does not handle a disconnect.  With a `NEWUSER`
tag other than NUL and a delimiter that is neither NUL nor a percent sign it
takes the default branch: every frame it writes is a chat frame with an
empty payload, and `client`, `allSet`, `addresses` and `usernames` stay as
they were. -/
theorem read_error_not_disconnect (cfg : Config) (s : State) (i stray : Nat)
    (rest : List Nat) (hbuf : s.buf = 0 :: rest) (hN : cfg.NEWUSER ≠ 0)
    (hD : cfg.MESSAGEDELIMITER ≠ 0) (hP : cfg.MESSAGEDELIMITER ≠ 37) :
    ∃ s1 w sender,
      dispatch cfg s i ⟨[], ReadEnd.error⟩ stray = Outcome.running (s1, Kind.chat) w ∧
      (∀ x ∈ w, x.frame = sender ++ [cfg.MESSAGEDELIMITER]) ∧
      s1.client = s.client ∧ s1.allSet = s.allSet ∧
      s1.addresses = s.addresses ∧ s1.usernames = s.usernames := by
  have hplain : ∀ b ∈ inet_ntoa s.clientAddress ++ [cfg.MESSAGEDELIMITER],
      b ≠ 0 ∧ b ≠ 37 := by
    intro b hb
    rcases List.mem_append.mp hb with hb | hb
    · have := inet_ntoa_bytes s.clientAddress b hb
      omega
    · rw [List.mem_singleton] at hb
      subst hb
      exact ⟨hD, hP⟩
  have hfit : fits (inet_ntoa s.clientAddress ++ [cfg.MESSAGEDELIMITER]) = true := by
    have := inet_ntoa_length s.clientAddress
    unfold fits BUFLEN
    simp only [List.length_append, List.length_singleton, decide_eq_true_eq]
    omega
  have hc := cstr_plain _ (fun b hb => (hplain b hb).1)
  have hf := formatFrom_plain _ (fun b hb => (hplain b hb).2)
  have hd : dispatch cfg s i ⟨[], ReadEnd.error⟩ stray =
      Outcome.running
        ({ s with buf := (overlay s.buf 0
            ((inet_ntoa s.clientAddress ++ [cfg.MESSAGEDELIMITER]) ++ [0])).set 0 0 },
          Kind.chat)
        (broadcast s (s.client.getD i (-1))
          (inet_ntoa s.clientAddress ++ [cfg.MESSAGEDELIMITER])) := by
    unfold dispatch
    have hr : readLoop ReadEnd.error [] s.buf 0 BUFLEN = (s.buf, -1) := by
      simp [readLoop, BUFLEN, ReadEnd.toInt]
    have hs : strlen s.buf = some 0 := by
      rw [hbuf]
      simp [strlen, cstr]
    have hcs : cstr s.buf = [] := by
      rw [hbuf]
      simp [cstr]
    have hh : s.buf.headD 0 = 0 := by
      rw [hbuf]
      rfl
    simp only [hr, hs, hcs, hh]
    rw [if_neg (by omega), if_neg (fun hc => hN hc.symm)]
    simp only [hfit, hc, hf, Bool.true_eq_false, if_false]
  refine ⟨_, _, inet_ntoa s.clientAddress, hd, ?_, rfl, rfl, rfl, rfl⟩
  intro x hx
  unfold broadcast at hx
  obtain ⟨j, _, rfl⟩ := List.mem_map.mp hx
  rfl

/-! ## Servicing order within one iteration (C10) -/

theorem after_trace {τ α : Type} (pre : List τ) (o : Outcome τ α) :
    (o.after pre).trace = pre ++ o.trace := by
  cases o <;> rfl

theorem after_value {τ α : Type} (pre : List τ) (o : Outcome τ α) :
    (o.after pre).value? = o.value? := by
  cases o <;> rfl

theorem readySlot_congr {s s1 : State} (curSet : List Int) (j : Nat)
    (h : s1.client.getD j (-1) = s.client.getD j (-1)) :
    readySlot s1 curSet j = readySlot s curSet j := by
  unfold readySlot
  rw [h]

theorem ready_after_dispatch {cfg : Config} {s s2 : State} {i : Nat} {rd : ReadScript}
    {stray : Nat} {k : Kind} {w : List Write} (curSet : List Int) (fuel : Nat)
    (hd : dispatch cfg s i rd stray = Outcome.running (s2, k) w) :
    (List.range' (i + 1) fuel).filter (readySlot s2 curSet) =
      (List.range' (i + 1) fuel).filter (readySlot s curSet) := by
  obtain ⟨_, _, _, _, hk⟩ := dispatch_running hd
  apply List.filter_congr
  intro j hj
  apply readySlot_congr
  have hji : i ≠ j := by
    have := (List.mem_range'_1.mp hj).1
    omega
  rcases hk with ⟨_, _, h4, _⟩ | ⟨_, h4, _⟩ | ⟨_, h4, _⟩
  · rw [h4, getD_set, if_neg (fun hc => hji hc.1)]
  · rw [h4]
  · rw [h4]

theorem scan_trace (cfg : Config) (inp : WakeInput) (fuel : Nat) :
    ∀ (i : Nat) (s : State) (n : Int),
      ((((List.range' i fuel).filter (readySlot s inp.curSet)).length : Nat) : Int) ≤ n →
      ∃ rest,
        ((List.range' i fuel).filter (readySlot s inp.curSet)).map some =
          (scan cfg inp fuel i s n).trace.map Serviced.slot? ++ rest ∧
        ((scan cfg inp fuel i s n).value?.isSome = true → rest = []) := by
  induction fuel with
  | zero =>
    intro i s n _
    exact ⟨[], rfl, fun _ => rfl⟩
  | succ fuel ih =>
    intro i s n hn
    rw [List.range'_succ] at hn ⊢
    unfold scan
    split
    · rename_i hneg
      have hr : readySlot s inp.curSet i = false := by
        unfold readySlot
        rw [decide_eq_false (by omega)]
        rfl
      rw [List.filter_cons_of_neg (by rw [hr]; exact Bool.false_ne_true)] at hn ⊢
      exact ih (i + 1) s n hn
    · rename_i hnn
      split
      · rename_i hmem
        have hr : readySlot s inp.curSet i = true := by
          unfold readySlot
          rw [decide_eq_true (by omega), decide_eq_true hmem]
          rfl
        rw [List.filter_cons_of_pos hr] at hn ⊢
        rw [List.length_cons] at hn
        push_cast at hn
        split
        · exact ⟨_, rfl, fun h => by cases h⟩
        · exact ⟨_, rfl, fun h => by cases h⟩
        · rename_i s2 w hd
          have hc := ready_after_dispatch inp.curSet fuel hd
          obtain ⟨rest, h1, h2⟩ := ih (i + 1) s2 n (by rw [hc]; omega)
          refine ⟨rest, ?_, ?_⟩
          · rw [after_trace, List.map_append, List.append_assoc, ← h1, hc]
            rfl
          · rw [after_value]
            exact h2
        · rename_i s2 k w hnl hd
          have hc := ready_after_dispatch inp.curSet fuel hd
          split
          · rename_i hle
            refine ⟨_, rfl, fun _ => ?_⟩
            have hnil : (List.range' (i + 1) fuel).filter (readySlot s inp.curSet) = [] := by
              apply List.eq_nil_of_length_eq_zero
              omega
            rw [hnil]
            rfl
          · obtain ⟨rest, h1, h2⟩ := ih (i + 1) s2 (n - 1) (by rw [hc]; omega)
            refine ⟨rest, ?_, ?_⟩
            · rw [after_trace, List.map_append, List.append_assoc, ← h1, hc]
              rfl
            · rw [after_value]
              exact h2
      · rename_i hmem
        have hr : readySlot s inp.curSet i = false := by
          unfold readySlot
          rw [decide_eq_false hmem]
          exact Bool.and_false _
        rw [List.filter_cons_of_neg (by rw [hr]; exact Bool.false_ne_true)] at hn ⊢
        exact ih (i + 1) s n hn

theorem filter_range_cut (p : Nat → Bool) (L F : Nat) (hLF : L ≤ F)
    (hp : ∀ j, p j = true → j < L) :
    (List.range F).filter p = (List.range' 0 L).filter p := by
  have hsplit : List.range' 0 F = List.range' 0 L ++ List.range' L (F - L) := by
    have := List.range'_append 0 L (F - L) 1
    simp only [Nat.one_mul, Nat.zero_add] at this
    rw [this]
    congr 1
    omega
  rw [List.range_eq_range', hsplit, List.filter_append]
  have hnil : (List.range' L (F - L)).filter p = [] := by
    rw [List.filter_eq_nil_iff]
    intro j hj hpj
    have := (List.mem_range'_1.mp hj).1
    have := hp j hpj
    omega
  rw [hnil, List.append_nil]

theorem readySlot_true {s : State} {curSet : List Int} {j : Nat}
    (h : readySlot s curSet j = true) :
    0 ≤ s.client.getD j (-1) ∧ s.client.getD j (-1) ∈ curSet := by
  unfold readySlot at h
  rw [Bool.and_eq_true] at h
  exact ⟨of_decide_eq_true h.1, of_decide_eq_true h.2⟩

theorem ready_count {cfg : Config} {s : State} (hI : Inv cfg s) (curSet : List Int)
    (L : Nat) :
    ((List.range' 0 L).filter (readySlot s curSet)).length +
      (if s.listeningSocketDescriptor ∈ curSet then 1 else 0) ≤ curSet.length := by
  have hl : ((List.range' 0 L).filter (readySlot s curSet)).Nodup :=
    (List.nodup_range' 0 L).filter _
  have hm : (((List.range' 0 L).filter (readySlot s curSet)).map
      (fun j => s.client.getD j (-1))).Nodup := by
    apply List.Nodup.map_on _ hl
    intro x hx y _ hxy
    exact hI.distinct x y (readySlot_true (List.mem_filter.mp hx).2).1 hxy
  have hsub : ((List.range' 0 L).filter (readySlot s curSet)).map
      (fun j => s.client.getD j (-1)) ⊆ curSet.erase s.listeningSocketDescriptor := by
    intro fd hfd
    obtain ⟨j, hj, rfl⟩ := List.mem_map.mp hfd
    rw [List.mem_erase_of_ne (hI.lsd_notin j)]
    exact (readySlot_true (List.mem_filter.mp hj).2).2
  have hle := (List.subperm_of_subset hm hsub).length_le
  rw [List.length_map] at hle
  split
  · rename_i hmem
    rw [List.length_erase_of_mem hmem] at hle
    have := List.length_pos_of_mem hmem
    omega
  · rename_i hmem
    rw [List.erase_of_not_mem hmem] at hle
    omega

theorem ready_cut {cfg : Config} {t : State} (ht : Inv cfg t) (curSet : List Int) :
    (List.range cfg.FD_SETSIZE).filter (readySlot t curSet) =
      (List.range' 0 (loopCount t)).filter (readySlot t curSet) := by
  apply filter_range_cut
  · have := ht.cnc_upper
    have := ht.cnc_lower
    unfold loopCount
    omega
  · intro j hj
    have := ht.bound j (readySlot_true hj).1
    unfold loopCount
    omega

theorem ready_after_accept {cfg : Config} {s s2 : State} {newfd : Int} {addr : InAddr}
    {w : List Write} (hI : Inv cfg s) (curSet : List Int)
    (hsub : ∀ fd, fd ∈ curSet → fd ∈ s.allSet) (hacc : -1 ≤ newfd)
    (hfresh : Fresh s newfd) (hadm : acceptClient cfg s newfd addr = Outcome.running s2 w) :
    readySlot s2 curSet = readySlot s curSet := by
  obtain ⟨hne, hslot, _, hs2⟩ := accept_running hadm
  obtain ⟨hlt, hneg, _⟩ := findSlot_facts cfg s hI.len hslot
  have hnew : newfd ∉ curSet := by
    intro hc
    rcases (hI.watched _).mp (hsub _ hc) with h1 | ⟨j, h1, _⟩
    · exact hfresh.1 h1
    · have hjl : j < s.client.length := getD_nonneg_lt (by rw [h1]; omega)
      exact hfresh.2 (h1 ▸ getD_mem_of_lt hjl (-1))
  funext j
  by_cases hj : findSlot cfg s.client = j
  · have h2 : s2.client.getD j (-1) = newfd := by
      rw [hs2]
      simp only []
      rw [getD_set, if_pos ⟨hj, hlt⟩]
    unfold readySlot
    rw [h2, decide_eq_false hnew, Bool.and_false, decide_eq_false (by rw [← hj]; omega),
      Bool.false_and]
  · apply readySlot_congr
    rw [hs2]
    simp only []
    rw [getD_set, if_neg (fun hc => hj hc.1)]

/-- C10: take a reachable state and one iteration of the loop in which
`select` reports the ready set `curSet` (a part of `allSet`) and returns
its size, and `accept`, if called, returns -1 or a descriptor that is not
open.  Let the due sequence be: the listener if it is in `curSet`, then
every slot of the whole table that is active with its descriptor in
`curSet`, in ascending index order, each once.  The descriptors the
iteration services, in order, are an initial segment of the due sequence,
and all of it when the iteration runs to its end (no `exit`, no undefined
behaviour).  So neither the counter `numReadibleDescriptors` nor the bound
`currentNewestClient` makes the scan skip a ready client. -/
theorem wake_services_ready {cfg : Config} {s : State} (hR : Reachable cfg s)
    (inp : WakeInput) (hsub : ∀ fd, fd ∈ inp.curSet → fd ∈ s.allSet)
    (hcount : inp.numReadibleDescriptors = (inp.curSet.length : Int))
    (hacc : s.listeningSocketDescriptor ∈ inp.curSet → -1 ≤ inp.newSocketDescriptor)
    (hfresh : s.listeningSocketDescriptor ∈ inp.curSet → Fresh s inp.newSocketDescriptor) :
    ∃ rest,
      (if s.listeningSocketDescriptor ∈ inp.curSet then [none] else []) ++
        ((List.range cfg.FD_SETSIZE).filter (readySlot s inp.curSet)).map some =
        (wake cfg s inp).trace.map Serviced.slot? ++ rest ∧
      ((wake cfg s inp).value?.isSome = true → rest = []) := by
  have hI := reachable_inv hR
  unfold wake
  split
  · rename_i hl
    split
    · exact ⟨_, rfl, fun h => by cases h⟩
    · exact ⟨_, rfl, fun h => by cases h⟩
    · rename_i s2 w hadm
      have hacc := hacc hl
      have hfresh := hfresh hl
      have hI2 : Inv cfg s2 := inv_accept hI (by
        have := (accept_running hadm).1
        omega) hfresh hadm
      have hfun := ready_after_accept hI inp.curSet hsub hacc hfresh hadm
      have hcnt := ready_count hI2 inp.curSet (loopCount s2)
      have hl2 : s2.listeningSocketDescriptor ∈ inp.curSet := by
        rw [(accept_running hadm).2.2.2]
        exact hl
      rw [if_pos hl2] at hcnt
      rw [← hfun, ready_cut hI2]
      split
      · rename_i hle
        refine ⟨_, rfl, fun _ => ?_⟩
        have hnil : (List.range' 0 (loopCount s2)).filter (readySlot s2 inp.curSet) = [] := by
          apply List.eq_nil_of_length_eq_zero
          omega
        rw [hnil]
        rfl
      · obtain ⟨rest, h1, h2⟩ :=
          scan_trace cfg inp (loopCount s2) 0 s2 (inp.numReadibleDescriptors - 1) (by omega)
        refine ⟨rest, ?_, ?_⟩
        · rw [after_trace, List.map_append, List.append_assoc, ← h1]
          rfl
        · rw [after_value]
          exact h2
  · rename_i hl
    rw [List.nil_append, ready_cut hI]
    have hcnt := ready_count hI inp.curSet (loopCount s)
    rw [if_neg hl] at hcnt
    exact scan_trace cfg inp (loopCount s) 0 s inp.numReadibleDescriptors (by omega)

/-! ## Example runs -/

set_option maxRecDepth 1000000

/-- The example state `demoA` is reachable. -/
theorem demoA_reachable : Reachable demoConfig demoA :=
  @Reachable.accept demoConfig demoStart demoA 4 peerA []
    (Reachable.init 3 ⟨0, 0, 0, 0⟩ (List.replicate BUFLEN 0) (by decide))
    (by decide) ⟨by decide, by decide⟩ (by decide)

/-- The example state `demoAB` is reachable. -/
theorem demoAB_reachable : Reachable demoConfig demoAB :=
  @Reachable.accept demoConfig demoA demoAB 5 peerB
    (acceptClient demoConfig demoA 5 peerB).trace
    demoA_reachable (by decide) ⟨by decide, by decide⟩ (by decide)

/-- The example state `demoABC` is reachable. -/
theorem demoABC_reachable : Reachable demoConfig demoABC :=
  @Reachable.accept demoConfig demoAB demoABC 6 peerC
    (acceptClient demoConfig demoAB 6 peerC).trace
    demoAB_reachable (by decide) ⟨by decide, by decide⟩ (by decide)

/-- The example state `demoB` is reachable. -/
theorem demoB_reachable : Reachable demoConfig demoB :=
  @Reachable.dispatch demoConfig demoAB demoB 0 hangUp 0 Kind.left
    (dispatch demoConfig demoAB 0 hangUp 0).trace
    demoAB_reachable (by decide) (by decide)

/-- The example state `demoABnamed` is reached by two admissions and one
announcement from slot 0, without disconnect. -/
theorem demoABnamed_quiet :
    QuietRun demoConfig [(4, peerA), (5, peerB)] [0] demoABnamed :=
  @QuietRun.announce demoConfig [(4, peerA), (5, peerB)] [] demoAB demoABnamed 0
    (frameOf [1, 97, 108]) 0 (dispatch demoConfig demoAB 0 (frameOf [1, 97, 108]) 0).trace
    (@QuietRun.accept demoConfig [(4, peerA)] [] demoA demoAB 5 peerB
      (acceptClient demoConfig demoA 5 peerB).trace
      (@QuietRun.accept demoConfig [] [] demoStart demoA 4 peerA []
        (QuietRun.init 3 ⟨0, 0, 0, 0⟩ (List.replicate BUFLEN 0) (by decide))
        (by decide) (by decide))
      (by decide) (by decide))
    (by decide) (by decide)

/-! ## Witnesses -/

/-- The invariant of C9 at `demoB`, the state after two admissions and the
disconnect of the first client. -/
theorem watched_set_invariant_witness :
    Reachable demoConfig demoB ∧
    ((∀ fd, fd ∈ demoB.allSet ↔
      fd = demoB.listeningSocketDescriptor ∨
        ∃ j, j < demoConfig.FD_SETSIZE ∧ demoB.client.getD j (-1) = fd ∧ fd ≠ -1) ∧
    (∀ fd, fd ∈ demoB.allSet → fd ≤ demoB.clientLatestSocket)) :=
  ⟨demoB_reachable, watched_set_invariant demoB_reachable⟩

/-- First-fit allocation (C6) at `demoB`, where slot 0 is unused and slot 1
is active: an admission on descriptor 7 takes slot 0. -/
theorem first_fit_allocation_witness :
    Reachable demoConfig demoB ∧
    ∃ i s1 w, acceptClient demoConfig demoB 7 peerC = Outcome.running s1 w ∧
      i < demoConfig.FD_SETSIZE ∧ demoB.client.getD i (-1) = -1 ∧
      (∀ j, j < i → demoB.client.getD j (-1) ≠ -1) ∧
      s1.client.getD i (-1) = 7 ∧
      (∀ j, j ≠ i → s1.client.getD j (-1) = demoB.client.getD j (-1)) ∧
      (∀ rd stray s2 w2,
        dispatch demoConfig s1 i rd stray = Outcome.running (s2, Kind.left) w2 →
        ∀ newfd2 addr2, 0 ≤ newfd2 → (∀ f ∈ rosterFrames demoConfig s2, fits f = true) →
          ∃ s3 w3, acceptClient demoConfig s2 newfd2 addr2 = Outcome.running s3 w3 ∧
            s3.client.getD i (-1) = newfd2) :=
  ⟨demoB_reachable,
    first_fit_allocation demoB_reachable 7 peerC (by decide)
      ⟨0, by decide, by decide, by decide⟩ (by decide)⟩

/-- Roster completeness (C4) at `demoABnamed`: the third admission writes
two frames to descriptor 6, the first with the nickname "al" of slot 0 and
the address of A, the second with an empty nickname and the address of B. -/
theorem roster_completeness_witness :
    QuietRun demoConfig [(4, peerA), (5, peerB)] [0] demoABnamed ∧
    (acceptClient demoConfig demoABnamed 6 peerC).trace =
      [⟨6, 1 :: 97 :: 108 :: 124 :: inet_ntoa peerA⟩, ⟨6, 1 :: 124 :: inet_ntoa peerB⟩] :=
  ⟨demoABnamed_quiet,
    (roster_completeness demoABnamed_quiet 6 peerC (by decide) (by decide)).1⟩

/-- The amended C7 at `demoABchat`, where the last dispatch has left the
frame buffer starting with NUL. -/
theorem read_error_not_disconnect_witness :
    ∃ s1 w sender,
      dispatch demoConfig demoABchat 0 ⟨[], ReadEnd.error⟩ 0 =
        Outcome.running (s1, Kind.chat) w ∧
      (∀ x ∈ w, x.frame = sender ++ [demoConfig.MESSAGEDELIMITER]) ∧
      s1.client = demoABchat.client ∧ s1.allSet = demoABchat.allSet ∧
      s1.addresses = demoABchat.addresses ∧ s1.usernames = demoABchat.usernames :=
  read_error_not_disconnect demoConfig demoABchat 0 0 demoABchat.buf.tail
    (by decide) (by decide) (by decide) (by decide)

/-- Servicing order (C10) for the iteration `demoWake` from `demoABC`: the
listener, then slot 0, then slot 2; slot 1 and the slot filled by the
admission are not dispatched. -/
theorem wake_services_ready_witness :
    Reachable demoConfig demoABC ∧
    (wake demoConfig demoABC demoWake).value? = some demoWoken ∧
    (wake demoConfig demoABC demoWake).trace.map Serviced.slot? = [none, some 0, some 2] ∧
    ∃ rest,
      (if demoABC.listeningSocketDescriptor ∈ demoWake.curSet then [none] else []) ++
        ((List.range demoConfig.FD_SETSIZE).filter
          (readySlot demoABC demoWake.curSet)).map some =
        (wake demoConfig demoABC demoWake).trace.map Serviced.slot? ++ rest ∧
      ((wake demoConfig demoABC demoWake).value?.isSome = true → rest = []) :=
  ⟨demoABC_reachable, by decide, by decide,
    wake_services_ready demoABC_reachable demoWake (by decide) (by decide)
      (fun _ => by decide) (fun _ => ⟨by decide, by decide⟩)⟩

/-! ## Behaviour at the inputs where the code departs from the description -/

/-- C1 at a failing input: peers A (10.0.0.1, descriptor 4, slot 0) and then
B (10.0.0.2, descriptor 5, slot 1) are admitted, and the first `read` on
slot 0 returns zero bytes.  One `USERLEFT` frame is written, to descriptor 5,
and nothing to descriptor 4; but the address in it is that of B, the peer
accepted last, while the address stored for slot 0 is that of A.  (The byte
after the address is the stray byte, 0 here.) -/
theorem userleft_names_last_accepted :
    (dispatch demoConfig demoAB 0 hangUp 0).trace =
      [⟨5, demoConfig.USERLEFT :: (inet_ntoa peerB ++ [0])⟩] ∧
    demoAB.client.getD 0 (-1) = 4 ∧
    demoAB.addresses.getD 0 [] = inet_ntoa peerA ∧
    inet_ntoa peerA ≠ inet_ntoa peerB := by
  decide

/-- C2 at a failing input: with A in slot 0 and B, accepted last, in slot 1,
slot 0 sends the chat text "hi".  The frame written to descriptor 5 is the
address of B, the delimiter and "hi"; the address stored for the sending
slot 0 is that of A. -/
theorem chat_names_last_accepted :
    (dispatch demoConfig demoAB 0 (frameOf [104, 105]) 0).trace =
      [⟨5, inet_ntoa peerB ++ demoConfig.MESSAGEDELIMITER :: [104, 105]⟩] ∧
    demoAB.addresses.getD 0 [] = inet_ntoa peerA ∧
    inet_ntoa peerA ≠ inet_ntoa peerB := by
  decide

/-- C3 at a failing input: A, B and C are admitted into slots 0, 1 and 2 and
B disconnects, so that `client` starts 4, -1, 6.  A chat frame and a
`NEWUSER` frame dispatched from slot 0 are each passed to `write` twice:
first with the descriptor -1 of the unused slot 1, then with descriptor 6.
The description has the single recipient 6. -/
theorem broadcast_writes_to_unused_slot :
    demoAC.client.take 3 = [4, -1, 6] ∧
    (dispatch demoConfig demoAC 0 (frameOf [104, 105]) 0).trace.map Write.fd = [-1, 6] ∧
    (dispatch demoConfig demoAC 0 (frameOf [1, 97, 108]) 0).trace.map Write.fd = [-1, 6] := by
  decide

/-- C5 at a failing input: A and B are admitted into slots 0 and 1 and A
disconnects, so that slot 0 is unused and slot 1 is the only active one.  The
next admission (descriptor 4 again, peer C) sends the new connection two
frames: first `NEWUSER` and the delimiter with empty nickname and address,
for the unused slot 0, then the frame for B. -/
theorem roster_announces_unused_slot :
    demoB.client.take 2 = [-1, 5] ∧
    (acceptClient demoConfig demoB 4 peerC).trace =
      [⟨4, [demoConfig.NEWUSER, demoConfig.MESSAGEDELIMITER]⟩,
       ⟨4, demoConfig.NEWUSER :: demoConfig.MESSAGEDELIMITER :: inet_ntoa peerB⟩] := by
  decide

/-- C7 at a counterexample: after slot 0 has sent a chat frame (so the frame
buffer starts with NUL), a `read` on slot 0 that returns -1 and one that
returns 0 are handled differently.  After the error the dispatcher writes a
chat frame with empty payload to descriptor 5 and keeps slot 0 and its
descriptor 4 in `client` and `allSet`; after the zero-length read it writes
a `USERLEFT` frame and releases slot 0. -/
theorem read_error_counterexample :
    dispatch demoConfig demoABchat 0 readFails 0 ≠
      dispatch demoConfig demoABchat 0 hangUp 0 ∧
    (dispatch demoConfig demoABchat 0 readFails 0).trace =
      [⟨5, inet_ntoa peerB ++ [demoConfig.MESSAGEDELIMITER]⟩] ∧
    (dispatch demoConfig demoABchat 0 readFails 0).value?.map Prod.snd = some Kind.chat ∧
    (afterDispatch demoConfig demoABchat 0 readFails 0).client.getD 0 (-1) = 4 ∧
    4 ∈ (afterDispatch demoConfig demoABchat 0 readFails 0).allSet ∧
    (dispatch demoConfig demoABchat 0 hangUp 0).trace =
      [⟨5, demoConfig.USERLEFT :: (inet_ntoa peerB ++ [0])⟩] ∧
    (afterDispatch demoConfig demoABchat 0 hangUp 0).client.getD 0 (-1) = -1 ∧
    4 ∉ (afterDispatch demoConfig demoABchat 0 hangUp 0).allSet := by
  decide

/-- C8 at two failing inputs, both dispatched from slot 0.  A frame that
holds the `NEWUSER` tag alone (an empty nickname): after the re-broadcast,
`strtok` returns the null pointer and `strcpy` is called with it, so the
behaviour is undefined and no nickname is stored.  A frame that holds the
tag, the delimiter and "bob": `strtok` skips the leading delimiter and the
nickname stored is "bob", where the bytes between the tag and the first
delimiter are none. -/
theorem nickname_not_stored_when_empty :
    dispatch demoConfig demoAB 0 (frameOf [demoConfig.NEWUSER]) 0 =
      Outcome.undefined
        [⟨5, demoConfig.NEWUSER :: demoConfig.MESSAGEDELIMITER :: inet_ntoa peerB⟩] ∧
    (dispatch demoConfig demoAB 0
      (frameOf [demoConfig.NEWUSER, demoConfig.MESSAGEDELIMITER, 98, 111, 98]) 0).value?.map
        Prod.snd = some Kind.announce ∧
    (afterDispatch demoConfig demoAB 0
      (frameOf [demoConfig.NEWUSER, demoConfig.MESSAGEDELIMITER, 98, 111, 98]) 0).usernames.getD
        0 [] = [98, 111, 98] := by
  decide

end ChatServer
